import Mathlib

/-!
Shallow embedding of the extractive text summarizer in `app.py`
(`summarize_text_spacy`).

The tokenizer/segmenter (spaCy) is an external collaborator: the core
consumes, per token, its surface text, lemma and the flags
`is_space`, `is_punct`, `is_stop`, plus sentence boundaries with each
sentence's surface text and start offset.  We model that interface as
explicit data (`Token`, `Sentence`) handed to the summarizer, and the
stop-word set `STOP_WORDS` as an abstract predicate on strings.
Python floats are modelled as exact rationals; Python dicts as
insertion-ordered association lists.
-/

namespace TextSummarizer

/-- A spaCy token as seen by the summarizer: surface text (`token.text`),
lemma (`token.lemma_`) and the flags used by the code. -/
structure Token where
  text : String
  lemma_ : String
  is_space : Bool
  is_punct : Bool
  is_stop : Bool
deriving DecidableEq, Repr

/-- A spaCy sentence span (`doc.sents` element): its ordered tokens, its
surface text (`sent.text`) and its start offset (`sent.start`, the index
of its first token in the document, used to restore document order). -/
structure Sentence where
  tokens : List Token
  text : String
  start : Nat
deriving DecidableEq, Repr

/-- Python `str.lower()`, modelled as character-wise ASCII lowercasing
over the string's character list. -/
def pyLower (s : String) : String := String.mk (s.data.map Char.toLower)

/-- Python whitespace characters stripped by `str.strip()` (the ASCII
ones: space, tab, newline, carriage return, vertical tab, form feed). -/
def pyIsSpaceChar (c : Char) : Bool :=
  c == ' ' || c == '\t' || c == '\n' || c == '\r' ||
    c == Char.ofNat 11 || c == Char.ofNat 12

/-- Python `str.strip()`: remove leading and trailing whitespace. -/
def pyStrip (s : String) : String :=
  String.mk (((s.data.dropWhile pyIsSpaceChar).reverse.dropWhile
    pyIsSpaceChar).reverse)

/-- Python `string.punctuation`. -/
def pythonPunctuation : List Char :=
  "!\"#$%&\x27()*+,-./:;<=>?@[\\]^_\x60\x7b|\x7d~".toList

/-- `token.text in punct_set` where `punct_set = set(punctuation)` is a set
of one-character strings: membership holds iff the token's surface text
equals one of those characters. -/
def isPunctText (s : String) : Bool :=
  pythonPunctuation.any (fun c => String.mk [c] == s)

/-- The filter chain of the `word_freq` loop (app.py lines 29-39): a token
contributes the key `token.lemma_.lower()` iff it is neither space nor
punctuation, not a stop word, its text is not a punctuation character,
and the lowercased lemma is non-empty and not itself a stop word. -/
def tokenContentKey (stopwords : String → Bool) (t : Token) : Option String :=
  if t.is_space || t.is_punct then none
  else if t.is_stop then none
  else if isPunctText t.text then none
  else
    let key := pyLower t.lemma_
    if key.isEmpty || stopwords key then none
    else some key

/-- Python `d[key] = d.get(key, 0) + 1` on an insertion-ordered dict:
increment in place if the key is present, else append with count 1. -/
def bumpCount (freq : List (String × Nat)) (key : String) : List (String × Nat) :=
  if freq.any (fun p => p.1 == key) then
    freq.map (fun p => if p.1 == key then (p.1, p.2 + 1) else p)
  else freq ++ [(key, 1)]

/-- The `word_freq` counting loop (app.py lines 28-39), iterating the
document's tokens in order. -/
def computeWordFreq (stopwords : String → Bool) (toks : List Token) :
    List (String × Nat) :=
  toks.foldl
    (fun freq t =>
      match tokenContentKey stopwords t with
      | none => freq
      | some key => bumpCount freq key)
    []

/-- `for token in doc`: the document's token stream.  spaCy's sentences
are non-overlapping and cover the document in order, so the stream is the
concatenation of the sentences' token lists. -/
def docTokens (sentences : List Sentence) : List Token :=
  sentences.foldr (fun s acc => s.tokens ++ acc) []

/-- `max(word_freq.values())` (app.py line 44).  The code only evaluates
this on a non-empty dict, where the fold below agrees with Python `max`
since every stored count is positive. -/
def maxFreq (freq : List (String × Nat)) : Nat :=
  (freq.map (fun p => p.2)).foldl max 0

/-- The normalization loop `word_freq[w] = word_freq[w] / max_f`
(app.py lines 44-46), with exact rational division. -/
def normalizeFreq (freq : List (String × Nat)) : List (String × ℚ) :=
  freq.map (fun p => (p.1, (p.2 : ℚ) / (maxFreq freq : ℚ)))

/-- Dict lookup `word_freq[key]` guarded by `key in word_freq`. -/
def lookupWeight (wf : List (String × ℚ)) (key : String) : Option ℚ :=
  (wf.find? (fun p => p.1 == key)).map (fun p => p.2)

/-- The inner loop of sentence scoring (app.py lines 50-58): accumulate
`score` (sum of weights of lemmas present in the weight map) and `length`
(count of non-space, non-punctuation tokens). -/
def sentenceRaw (wf : List (String × ℚ)) (s : Sentence) : ℚ × Nat :=
  s.tokens.foldl
    (fun acc t =>
      if t.is_space || t.is_punct then acc
      else
        match lookupWeight wf (pyLower t.lemma_) with
        | some w => (acc.1 + w, acc.2 + 1)
        | none => (acc.1, acc.2 + 1))
    (0, 0)

/-- Python `sent_scores[sent] = score` on an insertion-ordered dict keyed
by sentences. -/
def insertScore (m : List (Sentence × ℚ)) (s : Sentence) (v : ℚ) :
    List (Sentence × ℚ) :=
  if m.any (fun p => p.1 == s) then
    m.map (fun p => if p.1 == s then (p.1, v) else p)
  else m ++ [(s, v)]

/-- The `sent_scores` loop (app.py lines 48-61): a sentence receives the
score `score / length` iff its non-space/punct token count is positive;
otherwise it is omitted from the map. -/
def sentScores (wf : List (String × ℚ)) (sentences : List Sentence) :
    List (Sentence × ℚ) :=
  sentences.foldl
    (fun m s =>
      let r := sentenceRaw wf s
      if 0 < r.2 then insertScore m s (r.1 / (r.2 : ℚ)) else m)
    []

/-- Python `int()` applied to a (non-negative or negative) real value:
truncation toward zero. -/
def pyInt (q : ℚ) : Int := if 0 ≤ q then ⌊q⌋ else ⌈q⌉

/-- The target count (app.py lines 63-64):
`K = max(min_sentences, int(len(sentences) * ratio))` then
`K = min(K, max_sentences, len(sentences))`. -/
def targetK (totalSentences : Nat) (ratio : ℚ)
    (min_sentences max_sentences : Nat) : Nat :=
  let K : Int := max (min_sentences : Int) (pyInt ((totalSentences : ℚ) * ratio))
  min (min K.toNat max_sentences) totalSentences

/-- `heapq.nlargest(K, sent_scores, key=sent_scores.get)` (app.py line 66):
CPython's `nlargest` is equivalent to a stable descending sort of the
dict's keys by value followed by taking the first `K` (on ties the
earlier-inserted key wins). -/
def nlargestKeys (K : Nat) (m : List (Sentence × ℚ)) : List Sentence :=
  ((m.mergeSort (fun a b => decide (b.2 ≤ a.2))).take K).map (fun p => p.1)

/-- `sorted(top, key=lambda s: s.start)` (app.py line 67): Python's stable
ascending sort by start offset. -/
def sortByStart (top : List Sentence) : List Sentence :=
  top.mergeSort (fun a b => decide (a.start ≤ b.start))

/-- The outcome of `summarize_text_spacy` before final string rendering:
which branch of the function returned, and with which sentences. -/
inductive SummaryResult where
  | empty : SummaryResult
  | noSentences (trimmed : String) : SummaryResult
  | fallback (sents : List Sentence) : SummaryResult
  | summary (chosen : List Sentence) : SummaryResult
deriving DecidableEq, Repr

/-- The decision structure of `summarize_text_spacy` (app.py lines 10-69):
empty/whitespace input returns `""`; no sentences returns the trimmed
text; empty weight map returns the first `min_sentences` sentences;
otherwise the top-`K` sentences by score, re-sorted by document order. -/
def summarizeCore (stopwords : String → Bool) (text : String)
    (sentences : List Sentence) (ratio : ℚ)
    (min_sentences max_sentences : Nat) : SummaryResult :=
  if text.isEmpty || (pyStrip text).isEmpty then .empty
  else if sentences.isEmpty then .noSentences (pyStrip text)
  else
    let word_freq := computeWordFreq stopwords (docTokens sentences)
    if word_freq.isEmpty then .fallback (sentences.take min_sentences)
    else
      let wf := normalizeFreq word_freq
      let scores := sentScores wf sentences
      let K := targetK sentences.length ratio min_sentences max_sentences
      .summary (sortByStart (nlargestKeys K scores))

/-- Rendering of each branch to the returned string: `""`, `text.strip()`,
or `" ".join(s.text.strip() for s in ...)`. -/
def renderResult (r : SummaryResult) : String :=
  match r with
  | .empty => ""
  | .noSentences t => t
  | .fallback sents => String.intercalate " " (sents.map (fun s => pyStrip s.text))
  | .summary chosen => String.intercalate " " (chosen.map (fun s => pyStrip s.text))

/-- `summarize_text_spacy(text, nlp, ratio, min_sentences, max_sentences)`:
the composition of the decision structure with string rendering.  The
`nlp` argument is represented by the segmentation it produces
(`sentences`) together with the stop-word set. -/
def summarize_text_spacy (stopwords : String → Bool) (text : String)
    (sentences : List Sentence) (ratio : ℚ)
    (min_sentences max_sentences : Nat) : String :=
  renderResult (summarizeCore stopwords text sentences ratio min_sentences
    max_sentences)

/-- Observer: the sentences whose trimmed texts the output joins
(empty for the branches that return no sentence list). -/
def outputSentences (r : SummaryResult) : List Sentence :=
  match r with
  | .fallback sents => sents
  | .summary chosen => chosen
  | _ => []

/-! ### Structure of the sentence-scoring fold -/

/-- The non-space, non-punctuation tokens of a sentence (the tokens the
scoring loop does not skip). -/
def contentTokens (s : Sentence) : List Token :=
  s.tokens.filter (fun t => !(t.is_space || t.is_punct))

/-- The weight a single token contributes to its sentence's raw score:
the term weight of its lowercased lemma if present in the map, else 0. -/
def tokenWeight (wf : List (String × ℚ)) (t : Token) : ℚ :=
  (lookupWeight wf (pyLower t.lemma_)).getD 0

theorem sentenceRaw_foldl (wf : List (String × ℚ)) (ts : List Token)
    (a : ℚ × Nat) :
    (ts.foldl
      (fun acc t =>
        if t.is_space || t.is_punct then acc
        else
          match lookupWeight wf (pyLower t.lemma_) with
          | some w => (acc.1 + w, acc.2 + 1)
          | none => (acc.1, acc.2 + 1))
      a)
    = (a.1 + ((ts.filter (fun t => !(t.is_space || t.is_punct))).map
          (tokenWeight wf)).sum,
       a.2 + (ts.filter (fun t => !(t.is_space || t.is_punct))).length) := by
  induction ts generalizing a with
  | nil => simp
  | cons t ts ih =>
    by_cases h : (t.is_space || t.is_punct) = true
    · simp only [List.foldl_cons, ih, List.filter_cons, h]
      simp
    · simp only [List.foldl_cons, ih, List.filter_cons, h]
      cases hl : lookupWeight wf (pyLower t.lemma_) <;>
        simp only [h, hl, Bool.not_false, if_true, if_false,
          Bool.false_eq_true, List.map_cons, List.sum_cons,
          List.length_cons, Prod.mk.injEq, tokenWeight, Option.getD_some,
          Option.getD_none] <;>
        exact ⟨by ring, by omega⟩

/-- `sentenceRaw` computes exactly the sum of content-token weights and
the count of content tokens. -/
theorem sentenceRaw_eq (wf : List (String × ℚ)) (s : Sentence) :
    sentenceRaw wf s
      = (((contentTokens s).map (tokenWeight wf)).sum,
         (contentTokens s).length) := by
  unfold sentenceRaw contentTokens
  rw [sentenceRaw_foldl]
  simp

/-- If no entry of the map has key `s`, dict insertion appends. -/
theorem insertScore_of_forall_ne (m : List (Sentence × ℚ)) (s : Sentence)
    (v : ℚ) (h : ∀ p ∈ m, p.1 ≠ s) :
    insertScore m s v = m ++ [(s, v)] := by
  unfold insertScore
  rw [if_neg]
  simp only [List.any_eq_true, beq_iff_eq, not_exists, not_and]
  exact fun p hp => h p hp

/-- The score a scoreable sentence receives. -/
def sentenceScore (wf : List (String × ℚ)) (s : Sentence) : ℚ :=
  (sentenceRaw wf s).1 / ((sentenceRaw wf s).2 : ℚ)

theorem sentScores_go (wf : List (String × ℚ)) (ss : List Sentence)
    (acc : List (Sentence × ℚ))
    (hdisj : ∀ s ∈ ss, ∀ p ∈ acc, p.1 ≠ s) (hnd : ss.Nodup) :
    (ss.foldl
      (fun m s =>
        let r := sentenceRaw wf s
        if 0 < r.2 then insertScore m s (r.1 / (r.2 : ℚ)) else m)
      acc)
    = acc ++ (ss.filter (fun s => decide (0 < (sentenceRaw wf s).2))).map
        (fun s => (s, sentenceScore wf s)) := by
  induction ss generalizing acc with
  | nil => simp
  | cons s ss ih =>
    simp only [List.foldl_cons]
    by_cases h : 0 < (sentenceRaw wf s).2
    · rw [if_pos h, insertScore_of_forall_ne _ _ _
        (hdisj s (List.mem_cons_self s ss))]
      rw [ih]
      · simp [List.filter_cons, h, sentenceScore]
      · intro s' hs' p hp
        rcases List.mem_append.mp hp with hp | hp
        · exact hdisj s' (List.mem_cons_of_mem _ hs') p hp
        · simp only [List.mem_singleton] at hp
          subst hp
          intro hcon
          apply (List.nodup_cons.mp hnd).1
          have hss : s = s' := hcon
          rw [hss]
          exact hs'
      · exact (List.nodup_cons.mp hnd).2
    · rw [if_neg h, ih]
      · simp [List.filter_cons, h]
      · intro s' hs' p hp
        exact hdisj s' (List.mem_cons_of_mem _ hs') p hp
      · exact (List.nodup_cons.mp hnd).2

/-- On a duplicate-free sentence list (the segmentation invariant: spaCy
sentences are pairwise distinct spans), the score dict is the list of
scoreable sentences paired with their scores, in document order. -/
theorem sentScores_eq (wf : List (String × ℚ)) (ss : List Sentence)
    (hnd : ss.Nodup) :
    sentScores wf ss
      = (ss.filter (fun s => decide (0 < (sentenceRaw wf s).2))).map
          (fun s => (s, sentenceScore wf s)) := by
  unfold sentScores
  rw [sentScores_go wf ss [] (by simp) hnd]
  simp

/-! ### Structure of the frequency-counting fold -/

theorem bumpCount_pos (freq : List (String × Nat)) (key : String)
    (h : ∀ p ∈ freq, 0 < p.2) : ∀ p ∈ bumpCount freq key, 0 < p.2 := by
  unfold bumpCount
  split
  · intro p hp
    rcases List.mem_map.mp hp with ⟨q, hq, hqp⟩
    subst hqp
    split
    · exact Nat.lt_of_lt_of_le (h q hq) (Nat.le_succ _)
    · exact h q hq
  · intro p hp
    rcases List.mem_append.mp hp with hp | hp
    · exact h p hp
    · simp only [List.mem_singleton] at hp
      subst hp
      exact Nat.one_pos

theorem bumpCount_length_pos (freq : List (String × Nat)) (key : String) :
    0 < (bumpCount freq key).length := by
  unfold bumpCount
  split
  · next h =>
    rcases List.any_eq_true.mp h with ⟨p, hp, -⟩
    simpa using List.length_pos.mpr (List.ne_nil_of_mem hp)
  · simp

theorem bumpCount_length_ge (freq : List (String × Nat)) (key : String) :
    freq.length ≤ (bumpCount freq key).length := by
  unfold bumpCount
  split <;> simp

/-- Each step of the `word_freq` fold. -/
theorem wordFreq_go_pos (stopwords : String → Bool) (toks : List Token)
    (acc : List (String × Nat)) (h : ∀ p ∈ acc, 0 < p.2) :
    ∀ p ∈ toks.foldl
      (fun freq t =>
        match tokenContentKey stopwords t with
        | none => freq
        | some key => bumpCount freq key)
      acc, 0 < p.2 := by
  induction toks generalizing acc with
  | nil => simpa using h
  | cons t ts ih =>
    simp only [List.foldl_cons]
    cases tokenContentKey stopwords t with
    | none => exact ih acc h
    | some key => exact ih _ (bumpCount_pos acc key h)

/-- Every count stored in `word_freq` is positive. -/
theorem computeWordFreq_pos (stopwords : String → Bool) (toks : List Token) :
    ∀ p ∈ computeWordFreq stopwords toks, 0 < p.2 :=
  wordFreq_go_pos stopwords toks [] (by simp)

theorem wordFreq_go_length (stopwords : String → Bool) (toks : List Token)
    (acc : List (String × Nat)) :
    acc.length ≤ (toks.foldl
      (fun freq t =>
        match tokenContentKey stopwords t with
        | none => freq
        | some key => bumpCount freq key)
      acc).length := by
  induction toks generalizing acc with
  | nil => simp
  | cons t ts ih =>
    simp only [List.foldl_cons]
    cases tokenContentKey stopwords t with
    | none => exact ih acc
    | some key => exact Nat.le_trans (bumpCount_length_ge acc key) (ih _)

/-- If every token is filtered out, `word_freq` stays empty. -/
theorem computeWordFreq_eq_nil (stopwords : String → Bool)
    (toks : List Token)
    (h : ∀ t ∈ toks, tokenContentKey stopwords t = none) :
    computeWordFreq stopwords toks = [] := by
  unfold computeWordFreq
  induction toks with
  | nil => rfl
  | cons t ts ih =>
    simp only [List.foldl_cons, h t (List.mem_cons_self t ts)]
    exact ih fun t' ht' => h t' (List.mem_cons_of_mem _ ht')

/-- If some token survives the filter, `word_freq` is non-empty. -/
theorem computeWordFreq_ne_nil (stopwords : String → Bool)
    (toks : List Token) (t : Token) (ht : t ∈ toks)
    (hk : (tokenContentKey stopwords t).isSome) :
    computeWordFreq stopwords toks ≠ [] := by
  rcases List.append_of_mem ht with ⟨l1, l2, rfl⟩
  unfold computeWordFreq
  rw [List.foldl_append, List.foldl_cons]
  cases hkey : tokenContentKey stopwords t with
  | none => rw [hkey] at hk; simp at hk
  | some key =>
    intro hnil
    have h1 := wordFreq_go_length stopwords l2
      (bumpCount (l1.foldl
        (fun freq t =>
          match tokenContentKey stopwords t with
          | none => freq
          | some key => bumpCount freq key)
        []) key)
    rw [hnil] at h1
    simp only [List.length_nil, Nat.le_zero] at h1
    exact Nat.lt_irrefl 0 (h1 ▸ bumpCount_length_pos _ key)

/-! ### The maximum frequency -/

theorem foldl_max_init : ∀ (l : List Nat) (a : Nat), a ≤ l.foldl max a
  | [], a => Nat.le_refl a
  | x :: l, a => Nat.le_trans (le_max_left a x) (foldl_max_init l (max a x))

theorem foldl_max_le_of_mem : ∀ (l : List Nat) (a x : Nat), x ∈ l →
    x ≤ l.foldl max a
  | [], _, _, hx => by simp at hx
  | y :: l, a, x, hx => by
    rcases List.mem_cons.mp hx with rfl | hx
    · exact Nat.le_trans (le_max_right a x) (foldl_max_init l _)
    · exact foldl_max_le_of_mem l (max a y) x hx

theorem foldl_max_cases : ∀ (l : List Nat) (a : Nat),
    l.foldl max a = a ∨ l.foldl max a ∈ l
  | [], a => Or.inl rfl
  | x :: l, a => by
    simp only [List.foldl_cons]
    rcases foldl_max_cases l (max a x) with h | h
    · rcases max_choice a x with hm | hm
      · exact Or.inl (h.trans hm)
      · exact Or.inr (by rw [h.trans hm]; exact List.mem_cons_self x l)
    · exact Or.inr (List.mem_cons_of_mem x h)

/-- Every stored count is at most `maxFreq`. -/
theorem le_maxFreq (freq : List (String × Nat)) (p : String × Nat)
    (hp : p ∈ freq) : p.2 ≤ maxFreq freq :=
  foldl_max_le_of_mem _ _ _ (List.mem_map.mpr ⟨p, hp, rfl⟩)

/-- On a non-empty map, `maxFreq` is attained by some entry. -/
theorem maxFreq_attained (freq : List (String × Nat)) (h : freq ≠ []) :
    ∃ p ∈ freq, p.2 = maxFreq freq := by
  rcases foldl_max_cases (freq.map (fun p => p.2)) 0 with hc | hc
  · rcases List.exists_mem_of_ne_nil freq h with ⟨p, hp⟩
    have h1 := le_maxFreq freq p hp
    unfold maxFreq at *
    rw [hc] at h1
    simp only [Nat.le_zero] at h1
    refine ⟨p, hp, ?_⟩
    rw [hc, h1]
  · rcases List.mem_map.mp hc with ⟨p, hp, hpq⟩
    exact ⟨p, hp, hpq⟩

/-! ### Branch characterization of the summarizer -/

theorem summarizeCore_eq_empty (stopwords : String → Bool) (text : String)
    (sentences : List Sentence) (ratio : ℚ) (mi ma : Nat)
    (h : (text.isEmpty || (pyStrip text).isEmpty) = true) :
    summarizeCore stopwords text sentences ratio mi ma = .empty := by
  unfold summarizeCore
  rw [if_pos h]

theorem summarizeCore_eq_noSentences (stopwords : String → Bool)
    (text : String) (ratio : ℚ) (mi ma : Nat)
    (h : (text.isEmpty || (pyStrip text).isEmpty) = false) :
    summarizeCore stopwords text [] ratio mi ma = .noSentences (pyStrip text) := by
  unfold summarizeCore
  rw [if_neg (by simp [h])]
  simp

theorem summarizeCore_eq_fallback (stopwords : String → Bool) (text : String)
    (sentences : List Sentence) (ratio : ℚ) (mi ma : Nat)
    (h : (text.isEmpty || (pyStrip text).isEmpty) = false)
    (hs : sentences ≠ [])
    (hwf : computeWordFreq stopwords (docTokens sentences) = []) :
    summarizeCore stopwords text sentences ratio mi ma
      = .fallback (sentences.take mi) := by
  unfold summarizeCore
  rw [if_neg (by simp [h]), if_neg (by simp [hs])]
  simp only [hwf, List.isEmpty_nil, if_true]

theorem summarizeCore_eq_summary (stopwords : String → Bool) (text : String)
    (sentences : List Sentence) (ratio : ℚ) (mi ma : Nat)
    (h : (text.isEmpty || (pyStrip text).isEmpty) = false)
    (hs : sentences ≠ [])
    (hwf : computeWordFreq stopwords (docTokens sentences) ≠ []) :
    summarizeCore stopwords text sentences ratio mi ma
      = .summary (sortByStart (nlargestKeys
          (targetK sentences.length ratio mi ma)
          (sentScores
            (normalizeFreq (computeWordFreq stopwords (docTokens sentences)))
            sentences))) := by
  unfold summarizeCore
  rw [if_neg (by simp [h]), if_neg (by simp [hs]), if_neg (by simp [hwf])]

/-! ### Bounds on the target count -/

theorem pyInt_eq_floor (q : ℚ) (h : 0 ≤ q) : pyInt q = ⌊q⌋ := by
  unfold pyInt
  rw [if_pos h]

theorem targetK_le_max (total : Nat) (ratio : ℚ) (mi ma : Nat) :
    targetK total ratio mi ma ≤ ma := by
  simp only [targetK]
  omega

theorem targetK_le_total (total : Nat) (ratio : ℚ) (mi ma : Nat) :
    targetK total ratio mi ma ≤ total := by
  simp only [targetK]
  omega

theorem targetK_ge_min (total : Nat) (ratio : ℚ) (mi ma : Nat)
    (h1 : mi ≤ ma) (h2 : mi ≤ total) :
    mi ≤ targetK total ratio mi ma := by
  simp only [targetK]
  have hK : (mi : Int) ≤ max (mi : Int) (pyInt ((total : ℚ) * ratio)) :=
    le_max_left _ _
  omega

theorem targetK_pos (total : Nat) (ratio : ℚ) (mi ma : Nat)
    (h1 : 1 ≤ mi) (h2 : mi ≤ ma) (h3 : 1 ≤ total) :
    1 ≤ targetK total ratio mi ma := by
  simp only [targetK]
  have hK : (mi : Int) ≤ max (mi : Int) (pyInt ((total : ℚ) * ratio)) :=
    le_max_left _ _
  omega

/-! ### Lengths of the selection stages -/

theorem length_nlargestKeys (K : Nat) (m : List (Sentence × ℚ)) :
    (nlargestKeys K m).length = min K m.length := by
  unfold nlargestKeys
  rw [List.length_map, List.length_take, List.length_mergeSort]

theorem length_sortByStart (l : List Sentence) :
    (sortByStart l).length = l.length := by
  unfold sortByStart
  exact List.length_mergeSort l

/-! ### Order and stability of the two sorts -/

/-- The re-sort by start offset produces a list that is non-decreasing in
original document position. -/
theorem sortByStart_pairwise (l : List Sentence) :
    (sortByStart l).Pairwise (fun a b => a.start ≤ b.start) := by
  unfold sortByStart
  have h := @List.sorted_mergeSort Sentence
    (fun a b => decide (a.start ≤ b.start))
    (fun a b c hab hbc => by
      simp only [decide_eq_true_eq] at *
      omega)
    (fun a b => by
      simp only [Bool.or_eq_true, decide_eq_true_eq]
      exact Nat.le_total a.start b.start)
    l
  exact h.imp (fun hab => by simpa using hab)

theorem take_mem_of_pair_sublist {α : Type} :
    ∀ (l : List α) (K : Nat) (a b : α), List.Sublist [a, b] l → l.Nodup →
      b ∈ l.take K → a ∈ l.take K := by
  intro l
  induction l with
  | nil =>
    intro K a b hsub hnd hb
    simp at hb
  | cons x l ih =>
    intro K a b hsub hnd hb
    cases K with
    | zero => simp at hb
    | succ K =>
      rw [List.take_succ_cons] at hb ⊢
      cases hsub with
      | cons₂ _ h =>
        exact List.mem_cons_self _ _
      | cons _ h =>
        rcases List.mem_cons.mp hb with rfl | hb
        · exact absurd (h.subset (by simp)) (List.nodup_cons.mp hnd).1
        · exact List.mem_cons_of_mem _
            (ih K a b h (List.nodup_cons.mp hnd).2 hb)

/-- Stability of `nlargest`: on a dict with duplicate-free keys, if two
entries have equal scores and `a` was inserted before `b`, then whenever
`b`'s key is selected, `a`'s key is selected as well (ties are broken by
encountering order). -/
theorem nlargestKeys_stable_ties (m : List (Sentence × ℚ)) (K : Nat)
    (a b : Sentence × ℚ) (hnd : (m.map Prod.fst).Nodup)
    (hsub : List.Sublist [a, b] m) (hscore : a.2 = b.2)
    (hb : b.1 ∈ nlargestKeys K m) : a.1 ∈ nlargestKeys K m := by
  unfold nlargestKeys at *
  have hndm : m.Nodup := hnd.of_map
  have htrans : ∀ (p q r : Sentence × ℚ),
      (fun u v => decide (v.2 ≤ u.2)) p q = true →
      (fun u v => decide (v.2 ≤ u.2)) q r = true →
      (fun u v => decide (v.2 ≤ u.2)) p r = true := by
    intro p q r hpq hqr
    simp only [decide_eq_true_eq] at *
    exact le_trans hqr hpq
  have htotal : ∀ (p q : Sentence × ℚ),
      ((fun u v => decide (v.2 ≤ u.2)) p q
        || (fun u v => decide (v.2 ≤ u.2)) q p) = true := by
    intro p q
    simp only [Bool.or_eq_true, decide_eq_true_eq]
    exact le_total q.2 p.2
  have hpair : List.Sublist [a, b] (m.mergeSort (fun u v => decide (v.2 ≤ u.2))) :=
    List.pair_sublist_mergeSort htrans htotal (by simp [hscore]) hsub
  rcases List.mem_map.mp hb with ⟨p, hp, hp1⟩
  have hpm : p ∈ m := by
    have := List.take_subset K (m.mergeSort (fun u v => decide (v.2 ≤ u.2)))
    exact (List.mem_mergeSort).mp (this hp)
  have hbm : b ∈ m := hsub.subset (by simp)
  have hpb : p = b := List.inj_on_of_nodup_map hnd hpm hbm hp1
  subst hpb
  have hsortnd : (m.mergeSort (fun u v => decide (v.2 ≤ u.2))).Nodup :=
    ((List.mergeSort_perm m _).nodup_iff).mpr hndm
  have ha := take_mem_of_pair_sublist _ K a p hpair hsortnd hp
  exact List.mem_map.mpr ⟨a, ha, rfl⟩

/-! ### Keys of the score dict always have positive token count -/

theorem insertScore_key_pred (P : Sentence → Prop) (m : List (Sentence × ℚ))
    (s : Sentence) (v : ℚ) (hm : ∀ p ∈ m, P p.1) (hs : P s) :
    ∀ p ∈ insertScore m s v, P p.1 := by
  unfold insertScore
  split
  · intro p hp
    rcases List.mem_map.mp hp with ⟨q, hq, hqp⟩
    subst hqp
    split
    · exact hm q hq
    · exact hm q hq
  · intro p hp
    rcases List.mem_append.mp hp with hp | hp
    · exact hm p hp
    · simp only [List.mem_singleton] at hp
      subst hp
      exact hs

theorem sentScores_go_key_pos (wf : List (String × ℚ))
    (ss : List Sentence) (acc : List (Sentence × ℚ))
    (hacc : ∀ p ∈ acc, 0 < (sentenceRaw wf p.1).2) :
    ∀ p ∈ ss.foldl
      (fun m s =>
        let r := sentenceRaw wf s
        if 0 < r.2 then insertScore m s (r.1 / (r.2 : ℚ)) else m)
      acc, 0 < (sentenceRaw wf p.1).2 := by
  induction ss generalizing acc with
  | nil => simpa using hacc
  | cons s ss ih =>
    simp only [List.foldl_cons]
    by_cases h : 0 < (sentenceRaw wf s).2
    · rw [if_pos h]
      exact ih _ (insertScore_key_pred
        (fun x => 0 < (sentenceRaw wf x).2) acc s _ hacc h)
    · rw [if_neg h]
      exact ih _ hacc

/-- Every key of the score dict has a positive content-token count. -/
theorem sentScores_key_pos (wf : List (String × ℚ)) (ss : List Sentence) :
    ∀ p ∈ sentScores wf ss, 0 < (sentenceRaw wf p.1).2 :=
  sentScores_go_key_pos wf ss [] (by simp)

/-! ### Example inputs (stop-word set and small documents) -/

/-- A tiny stop-word set standing in for spaCy's `STOP_WORDS`. -/
def exStop : String → Bool := fun s => s == "the"

def cexS1 : Sentence :=
  ⟨[⟨"Cats", "cat", false, false, false⟩,
    ⟨"sat", "sit", false, false, false⟩,
    ⟨".", ".", false, true, false⟩], "Cats sat.", 0⟩

def cexS2 : Sentence := ⟨[⟨"!!!", "!!!", false, true, false⟩], "!!!", 3⟩

def cexS3 : Sentence := ⟨[⟨"???", "???", false, true, false⟩], "???", 4⟩

def c2S1 : Sentence :=
  ⟨[⟨"Dogs", "dog", false, false, false⟩,
    ⟨"run", "run", false, false, false⟩,
    ⟨".", ".", false, true, false⟩], "Dogs run.", 0⟩

def c2S2 : Sentence :=
  ⟨[⟨"Birds", "bird", false, false, false⟩,
    ⟨"fly", "fly", false, false, false⟩,
    ⟨".", ".", false, true, false⟩], "Birds fly.", 3⟩

def c2S3 : Sentence := ⟨[⟨"...", "...", false, true, false⟩], "...", 6⟩

/-! ### Claim C4 -/

/-- C4: for every lemma-to-count map produced by the frequency scorer,
if the map is non-empty then after normalization every weight lies in
(0,1] and some weight equals exactly 1; if no token survives filtering
the map is empty. -/
theorem normalized_weights_invariant (stopwords : String → Bool)
    (toks : List Token) (hne : computeWordFreq stopwords toks ≠ []) :
    ((∀ p ∈ normalizeFreq (computeWordFreq stopwords toks),
        0 < p.2 ∧ p.2 ≤ 1)
      ∧ ∃ p ∈ normalizeFreq (computeWordFreq stopwords toks), p.2 = 1)
    ∧ ((∀ t ∈ toks, tokenContentKey stopwords t = none) →
        computeWordFreq stopwords toks = []) := by
  refine ⟨⟨?_, ?_⟩, computeWordFreq_eq_nil stopwords toks⟩
  · intro p hp
    rcases List.mem_map.mp hp with ⟨q, hq, hqp⟩
    subst hqp
    have hq2 : 0 < q.2 := computeWordFreq_pos stopwords toks q hq
    have hqM : q.2 ≤ maxFreq (computeWordFreq stopwords toks) :=
      le_maxFreq _ q hq
    have hM : 0 < maxFreq (computeWordFreq stopwords toks) :=
      Nat.lt_of_lt_of_le hq2 hqM
    have hMQ : (0 : ℚ) < (maxFreq (computeWordFreq stopwords toks) : ℚ) := by
      exact_mod_cast hM
    constructor
    · exact div_pos (by exact_mod_cast hq2) hMQ
    · rw [div_le_one hMQ]
      exact_mod_cast hqM
  · rcases maxFreq_attained _ hne with ⟨q, hq, hqmax⟩
    have hq2 : 0 < q.2 := computeWordFreq_pos stopwords toks q hq
    have hM : 0 < maxFreq (computeWordFreq stopwords toks) := hqmax ▸ hq2
    refine ⟨(q.1, (q.2 : ℚ) / (maxFreq (computeWordFreq stopwords toks) : ℚ)),
      List.mem_map.mpr ⟨q, hq, rfl⟩, ?_⟩
    have hcast : (q.2 : ℚ) = (maxFreq (computeWordFreq stopwords toks) : ℚ) := by
      exact_mod_cast hqmax
    rw [hcast]
    exact div_self (Nat.cast_ne_zero.mpr (Nat.pos_iff_ne_zero.mp hM))

/-- Witness for C4 at a concrete token list whose surviving lemmas are
`dog` (count 2) and `bark` (count 1). -/
theorem normalized_weights_invariant_witness :
    (∀ p ∈ normalizeFreq (computeWordFreq exStop
        [⟨"Dogs", "dog", false, false, false⟩,
         ⟨"bark", "bark", false, false, false⟩,
         ⟨"dog", "dog", false, false, false⟩]),
        0 < p.2 ∧ p.2 ≤ 1)
    ∧ ∃ p ∈ normalizeFreq (computeWordFreq exStop
        [⟨"Dogs", "dog", false, false, false⟩,
         ⟨"bark", "bark", false, false, false⟩,
         ⟨"dog", "dog", false, false, false⟩]), p.2 = 1 :=
  (normalized_weights_invariant exStop _ (by decide)).1

/-! ### Claim C10 -/

/-- C10: every division the summarizer performs is guarded: the
normalization divisor `max(word_freq.values())` is positive whenever the
code reaches the division (non-empty map), and every sentence recorded in
the score dict has a positive non-space/punct token count, the divisor of
the per-sentence average. -/
theorem division_guards (stopwords : String → Bool) (toks : List Token)
    (wf : List (String × ℚ)) (sents : List Sentence)
    (hne : computeWordFreq stopwords toks ≠ []) :
    0 < maxFreq (computeWordFreq stopwords toks)
    ∧ ∀ p ∈ sentScores wf sents, 0 < (sentenceRaw wf p.1).2 := by
  constructor
  · rcases maxFreq_attained _ hne with ⟨q, hq, hqmax⟩
    exact hqmax ▸ computeWordFreq_pos stopwords toks q hq
  · exact sentScores_key_pos wf sents

/-- Witness for C10: at a concrete document the normalization divisor is
positive and each scored sentence has positive token count. -/
theorem division_guards_witness :
    0 < maxFreq (computeWordFreq exStop (docTokens [c2S1, c2S2, c2S3]))
    ∧ ∀ p ∈ sentScores [("dog", (1 : ℚ))] [c2S1, c2S2, c2S3],
        0 < (sentenceRaw [("dog", (1 : ℚ))] p.1).2 :=
  division_guards exStop (docTokens [c2S1, c2S2, c2S3])
    [("dog", (1 : ℚ))] [c2S1, c2S2, c2S3] (by decide)

/-! ### Claim C3 -/

/-- C3: on every branch, the sentences whose texts the output joins occur
in non-decreasing original document position: the prefix fallback keeps
document order, and the main branch re-sorts the top-K selection by start
offset before joining.  The hypothesis is the segmentation invariant that
the input sentences arrive in strictly increasing document position. -/
theorem output_preserves_document_order (stopwords : String → Bool)
    (text : String) (sentences : List Sentence) (ratio : ℚ) (mi ma : Nat)
    (hord : sentences.Pairwise (fun a b => a.start < b.start)) :
    (outputSentences
        (summarizeCore stopwords text sentences ratio mi ma)).Pairwise
      (fun a b => a.start ≤ b.start) := by
  by_cases h1 : (text.isEmpty || (pyStrip text).isEmpty) = true
  · rw [summarizeCore_eq_empty _ _ _ _ _ _ h1]
    simp [outputSentences]
  · have h1' : (text.isEmpty || (pyStrip text).isEmpty) = false := by
      simpa using h1
    by_cases h2 : sentences = []
    · subst h2
      rw [summarizeCore_eq_noSentences _ _ _ _ _ h1']
      simp [outputSentences]
    · by_cases h3 : computeWordFreq stopwords (docTokens sentences) = []
      · rw [summarizeCore_eq_fallback _ _ _ _ _ _ h1' h2 h3]
        simp only [outputSentences]
        exact (hord.take).imp (fun h => Nat.le_of_lt h)
      · rw [summarizeCore_eq_summary _ _ _ _ _ _ h1' h2 h3]
        simp only [outputSentences]
        exact sortByStart_pairwise _

/-- Witness for C3 at a concrete three-sentence document. -/
theorem output_preserves_document_order_witness :
    (outputSentences
        (summarizeCore exStop "Dogs run. Birds fly. ..."
          [c2S1, c2S2, c2S3] (3/10) 1 8)).Pairwise
      (fun a b => a.start ≤ b.start) :=
  output_preserves_document_order exStop "Dogs run. Birds fly. ..."
    [c2S1, c2S2, c2S3] (3/10) 1 8 (by decide)

/-! ### Claim C5 -/

/-- C5: a sentence's raw score sums the weight of each non-space,
non-punctuation token's lowercased lemma (absent lemmas contribute 0 yet
count toward the denominator; stop words are not skipped here), the
denominator is the count of non-space/punct tokens, and the score dict
contains `(s, q)` exactly when that count is positive and `q` is the
accumulated sum divided by that count. -/
theorem sentence_scoring_spec (wf : List (String × ℚ)) (s : Sentence)
    (q : ℚ) (sentences : List Sentence) (hnd : sentences.Nodup) :
    sentenceRaw wf s
      = (((contentTokens s).map (tokenWeight wf)).sum,
         (contentTokens s).length)
    ∧ ((s, q) ∈ sentScores wf sentences
        ↔ s ∈ sentences ∧ 0 < (contentTokens s).length
          ∧ q = ((contentTokens s).map (tokenWeight wf)).sum
              / ((contentTokens s).length : ℚ)) := by
  have hsr : (sentenceRaw wf s).2 = (contentTokens s).length := by
    rw [sentenceRaw_eq]
  have hscore : sentenceScore wf s
      = ((contentTokens s).map (tokenWeight wf)).sum
        / ((contentTokens s).length : ℚ) := by
    unfold sentenceScore
    rw [sentenceRaw_eq]
  refine ⟨sentenceRaw_eq wf s, ?_⟩
  rw [sentScores_eq wf sentences hnd]
  constructor
  · intro hq
    rcases List.mem_map.mp hq with ⟨s', hs', heq⟩
    simp only [Prod.mk.injEq] at heq
    obtain ⟨rfl, rfl⟩ := heq
    rcases List.mem_filter.mp hs' with ⟨hmem, hguard⟩
    simp only [decide_eq_true_eq] at hguard
    exact ⟨hmem, hsr ▸ hguard, hscore⟩
  · rintro ⟨hmem, hlen, rfl⟩
    refine List.mem_map.mpr ⟨s, ?_, ?_⟩
    · rw [List.mem_filter]
      refine ⟨hmem, ?_⟩
      simp only [decide_eq_true_eq]
      exact hsr ▸ hlen
    · rw [hscore]

/-- Witness for C5: concrete weight map and document; the first sentence
is scoreable, carries score 1/2 (weight 1 for `dog` plus 0 for the
absent `run`, averaged over 2 content tokens), and is present in the
score dict with exactly that value. -/
theorem sentence_scoring_spec_witness :
    sentenceRaw [("dog", (1 : ℚ))] c2S1
      = (((contentTokens c2S1).map (tokenWeight [("dog", (1 : ℚ))])).sum,
         (contentTokens c2S1).length)
    ∧ ((c2S1, (1/2 : ℚ)) ∈ sentScores [("dog", (1 : ℚ))] [c2S1, c2S3]
        ↔ c2S1 ∈ [c2S1, c2S3] ∧ 0 < (contentTokens c2S1).length
          ∧ (1/2 : ℚ) = ((contentTokens c2S1).map
              (tokenWeight [("dog", (1 : ℚ))])).sum
              / ((contentTokens c2S1).length : ℚ)) :=
  sentence_scoring_spec [("dog", (1 : ℚ))] c2S1 (1/2) [c2S1, c2S3]
    (by decide)

/-! ### Claim C6 -/

/-- C6: when no token survives the content-word filters (empty weight
map), the summarizer returns the first `min_sentences` sentences (all of
them when the document has fewer), each trimmed, joined by single spaces
-- a total fallback, not an error. -/
theorem empty_weight_map_fallback (stopwords : String → Bool)
    (text : String) (sentences : List Sentence) (ratio : ℚ) (mi ma : Nat)
    (htext : (text.isEmpty || (pyStrip text).isEmpty) = false)
    (hs : sentences ≠ [])
    (hwf : computeWordFreq stopwords (docTokens sentences) = []) :
    summarize_text_spacy stopwords text sentences ratio mi ma
      = String.intercalate " "
          ((sentences.take mi).map (fun s => pyStrip s.text))
    ∧ (sentences.take mi).length = min mi sentences.length := by
  constructor
  · unfold summarize_text_spacy
    rw [summarizeCore_eq_fallback _ _ _ _ _ _ htext hs hwf]
    rfl
  · exact List.length_take mi sentences

/-- Witness for C6: a document whose only lemma is the stop word `the`
falls back to the first `min_sentences = 2` sentences. -/
theorem empty_weight_map_fallback_witness :
    summarize_text_spacy exStop "The the. The!"
        [⟨[⟨"The", "the", false, false, true⟩], "The the.", 0⟩,
         ⟨[⟨"The", "the", false, false, true⟩], "The!", 2⟩] (3/10) 2 8
      = String.intercalate " "
          ((([⟨[⟨"The", "the", false, false, true⟩], "The the.", 0⟩,
              ⟨[⟨"The", "the", false, false, true⟩], "The!", 2⟩]
              : List Sentence).take 2).map (fun s => pyStrip s.text))
    ∧ (([⟨[⟨"The", "the", false, false, true⟩], "The the.", 0⟩,
         ⟨[⟨"The", "the", false, false, true⟩], "The!", 2⟩]
         : List Sentence).take 2).length
      = min 2 ([⟨[⟨"The", "the", false, false, true⟩], "The the.", 0⟩,
                ⟨[⟨"The", "the", false, false, true⟩], "The!", 2⟩]
                : List Sentence).length :=
  empty_weight_map_fallback exStop "The the. The!" _ (3/10) 2 8
    (by decide) (by decide) (by decide)

/-! ### Claim C1 -/

/-- C1 as stated is false: see `summary_length_bounds_counterexample`.
Amended claim: under the configuration contract (1 ≤ min ≤ max) and
provided every sentence contains at least one non-space/non-punctuation
token (so that every sentence is scoreable), a non-empty document with at
least `min_sentences` sentences yields an output with between
`min_sentences` and `min(max_sentences, totalSentences)` sentences. -/
theorem summary_length_bounds (stopwords : String → Bool) (text : String)
    (sentences : List Sentence) (ratio : ℚ) (mi ma : Nat)
    (htext : (text.isEmpty || (pyStrip text).isEmpty) = false)
    (hmi : 1 ≤ mi) (hmima : mi ≤ ma) (htotal : mi ≤ sentences.length)
    (hord : sentences.Pairwise (fun a b => a.start < b.start))
    (hcontent : ∀ s ∈ sentences, 0 < (contentTokens s).length) :
    mi ≤ (outputSentences
        (summarizeCore stopwords text sentences ratio mi ma)).length
    ∧ (outputSentences
        (summarizeCore stopwords text sentences ratio mi ma)).length
      ≤ min ma sentences.length := by
  have hnd : sentences.Nodup :=
    hord.imp (fun h heq => by subst heq; exact lt_irrefl _ h)
  have hne : sentences ≠ [] := by
    intro h
    rw [h] at htotal
    simp at htotal
    omega
  by_cases hwf : computeWordFreq stopwords (docTokens sentences) = []
  · rw [summarizeCore_eq_fallback _ _ _ _ _ _ htext hne hwf]
    simp only [outputSentences, List.length_take]
    omega
  · rw [summarizeCore_eq_summary _ _ _ _ _ _ htext hne hwf]
    simp only [outputSentences]
    rw [length_sortByStart, length_nlargestKeys]
    have hscores :
        (sentScores
          (normalizeFreq (computeWordFreq stopwords (docTokens sentences)))
          sentences).length = sentences.length := by
      rw [sentScores_eq _ _ hnd, List.length_map]
      rw [List.filter_eq_self.mpr]
      intro s hs
      simp only [decide_eq_true_eq]
      have h2 : (sentenceRaw
          (normalizeFreq (computeWordFreq stopwords (docTokens sentences)))
          s).2 = (contentTokens s).length := by
        rw [sentenceRaw_eq]
      rw [h2]
      exact hcontent s hs
    rw [hscores]
    have h1 := targetK_ge_min sentences.length ratio mi ma hmima htotal
    have h2 := targetK_le_max sentences.length ratio mi ma
    have h3 := targetK_le_total sentences.length ratio mi ma
    omega

/-- Witness for the amended C1 at a concrete three-sentence document with
min 2, max 8. -/
theorem summary_length_bounds_witness :
    2 ≤ (outputSentences
        (summarizeCore exStop "Dogs run. Birds fly. Cats nap."
          [c2S1, c2S2, ⟨[⟨"Cats", "cat", false, false, false⟩,
            ⟨"nap", "nap", false, false, false⟩], "Cats nap.", 6⟩]
          (3/10) 2 8)).length
    ∧ (outputSentences
        (summarizeCore exStop "Dogs run. Birds fly. Cats nap."
          [c2S1, c2S2, ⟨[⟨"Cats", "cat", false, false, false⟩,
            ⟨"nap", "nap", false, false, false⟩], "Cats nap.", 6⟩]
          (3/10) 2 8)).length
      ≤ min 8 ([c2S1, c2S2, ⟨[⟨"Cats", "cat", false, false, false⟩,
            ⟨"nap", "nap", false, false, false⟩], "Cats nap.", 6⟩]
            : List Sentence).length :=
  summary_length_bounds exStop "Dogs run. Birds fly. Cats nap."
    _ (3/10) 2 8 (by decide) (by decide) (by decide) (by decide)
    (by decide) (by decide)

/-- C1 counterexample: the document `Cats sat. !!! ???` has 3 sentences,
at least the configured minimum of 2, and non-blank text; yet two
sentences contain only punctuation, are never scored, and the output
joins a single sentence -- strictly below the claimed lower bound
`min_sentences = 2`. -/
theorem summary_length_bounds_counterexample :
    ("Cats sat. !!! ???".isEmpty
      || (pyStrip "Cats sat. !!! ???").isEmpty) = false
    ∧ 2 ≤ ([cexS1, cexS2, cexS3] : List Sentence).length
    ∧ (outputSentences
        (summarizeCore exStop "Cats sat. !!! ???"
          [cexS1, cexS2, cexS3] (3/10) 2 8)).length < 2 := by
  refine ⟨by decide, by decide, ?_⟩
  rw [summarizeCore_eq_summary _ _ _ _ _ _ (by decide) (by decide)
    (by decide)]
  simp only [outputSentences]
  rw [length_sortByStart, length_nlargestKeys]
  have hlen :
      (sentScores
        (normalizeFreq (computeWordFreq exStop
          (docTokens [cexS1, cexS2, cexS3])))
        [cexS1, cexS2, cexS3]).length = 1 := by
    rw [sentScores_eq _ _ (by decide), List.length_map]
    decide
  have hK : targetK ([cexS1, cexS2, cexS3] : List Sentence).length (3/10) 2 8
      = 2 := by
    have hcast : ((([cexS1, cexS2, cexS3] : List Sentence).length : ℚ))
        * (3/10) = 9/10 := by
      norm_num
    simp only [targetK, pyInt, hcast]
    rw [if_pos (by norm_num)]
    rw [show ⌊(9/10 : ℚ)⌋ = 0 from by
      rw [Int.floor_eq_zero_iff]
      constructor <;> norm_num]
    decide
  rw [hlen, hK]
  decide

/-! ### Claim C2 -/

/-- C2 as stated is false: see `selected_count_counterexample`.  Amended
claim: the code's target count agrees with the spec formula
`K = min(min(max(minSentences, floor(total * ratio)), maxSentences), total)`
for non-negative `ratio`, and `K ≥ 1` whenever `total ≥ 1` under the
configuration contract `1 ≤ min ≤ max`; but the number of selected
sentences is `min(K, S)` where `S` counts the scoreable sentences (those
with at least one non-space/punct token), which equals `K` only when
enough sentences are scoreable. -/
theorem selected_count (stopwords : String → Bool) (text : String)
    (sentences : List Sentence) (ratio : ℚ) (mi ma : Nat)
    (htext : (text.isEmpty || (pyStrip text).isEmpty) = false)
    (hs : sentences ≠ [])
    (hord : sentences.Pairwise (fun a b => a.start < b.start))
    (hwf : computeWordFreq stopwords (docTokens sentences) ≠ [])
    (hratio : 0 ≤ ratio) :
    (outputSentences
        (summarizeCore stopwords text sentences ratio mi ma)).length
      = min (targetK sentences.length ratio mi ma)
          ((sentences.filter
            (fun s => decide (0 < (contentTokens s).length))).length)
    ∧ targetK sentences.length ratio mi ma
      = min (min (max mi (Int.toNat ⌊(sentences.length : ℚ) * ratio⌋)) ma)
          sentences.length
    ∧ (1 ≤ mi → mi ≤ ma → 1 ≤ sentences.length →
        1 ≤ targetK sentences.length ratio mi ma) := by
  have hnd : sentences.Nodup :=
    hord.imp (fun h heq => by subst heq; exact lt_irrefl _ h)
  refine ⟨?_, ?_, fun h1 h2 h3 => targetK_pos _ ratio _ _ h1 h2 h3⟩
  · rw [summarizeCore_eq_summary _ _ _ _ _ _ htext hs hwf]
    simp only [outputSentences]
    rw [length_sortByStart, length_nlargestKeys]
    rw [sentScores_eq _ _ hnd, List.length_map]
    rw [List.filter_congr (fun s _ => ?_)]
    have h2 : (sentenceRaw
        (normalizeFreq (computeWordFreq stopwords (docTokens sentences)))
        s).2 = (contentTokens s).length := by
      rw [sentenceRaw_eq]
    rw [h2]
  · have hnn : 0 ≤ ((sentences.length : ℚ)) * ratio :=
      mul_nonneg (by positivity) hratio
    have hfl : 0 ≤ ⌊(sentences.length : ℚ) * ratio⌋ :=
      Int.floor_nonneg.mpr hnn
    simp only [targetK, pyInt_eq_floor _ hnn]
    omega

/-- Witness for the amended C2 at a concrete three-sentence document with
ratio 1, min 1, max 8. -/
theorem selected_count_witness :
    (outputSentences
        (summarizeCore exStop "Dogs run. Birds fly. ..."
          [c2S1, c2S2, c2S3] 1 1 8)).length
      = min (targetK ([c2S1, c2S2, c2S3] : List Sentence).length 1 1 8)
          ((([c2S1, c2S2, c2S3] : List Sentence).filter
            (fun s => decide (0 < (contentTokens s).length))).length)
    ∧ targetK ([c2S1, c2S2, c2S3] : List Sentence).length 1 1 8
      = min (min (max 1 (Int.toNat
            ⌊((([c2S1, c2S2, c2S3] : List Sentence).length : ℚ)) * 1⌋)) 8)
          ([c2S1, c2S2, c2S3] : List Sentence).length
    ∧ (1 ≤ 1 → 1 ≤ 8 →
        1 ≤ ([c2S1, c2S2, c2S3] : List Sentence).length →
        1 ≤ targetK ([c2S1, c2S2, c2S3] : List Sentence).length 1 1 8) :=
  selected_count exStop "Dogs run. Birds fly. ..." [c2S1, c2S2, c2S3] 1 1 8
    (by decide) (by decide) (by decide) (by decide) (by decide)

/-- C2 counterexample: the document `Dogs run. Birds fly. ...` has three
sentences and a non-empty weight map; with `min_sentences = 3` the code's
target is `K = 3`, yet only 2 sentences are scoreable and only 2 are
selected -- not exactly `K`. -/
theorem selected_count_counterexample :
    computeWordFreq exStop (docTokens [c2S1, c2S2, c2S3]) ≠ []
    ∧ targetK ([c2S1, c2S2, c2S3] : List Sentence).length (3/10) 3 8 = 3
    ∧ (outputSentences
        (summarizeCore exStop "Dogs run. Birds fly. ..."
          [c2S1, c2S2, c2S3] (3/10) 3 8)).length
      ≠ targetK ([c2S1, c2S2, c2S3] : List Sentence).length (3/10) 3 8 := by
  have hK : targetK ([c2S1, c2S2, c2S3] : List Sentence).length (3/10) 3 8
      = 3 := by
    have hcast : ((([c2S1, c2S2, c2S3] : List Sentence).length : ℚ))
        * (3/10) = 9/10 := by
      norm_num
    simp only [targetK, pyInt, hcast]
    rw [if_pos (by norm_num)]
    rw [show ⌊(9/10 : ℚ)⌋ = 0 from by
      rw [Int.floor_eq_zero_iff]
      constructor <;> norm_num]
    decide
  refine ⟨by decide, hK, ?_⟩
  rw [summarizeCore_eq_summary _ _ _ _ _ _ (by decide) (by decide)
    (by decide)]
  simp only [outputSentences]
  rw [length_sortByStart, length_nlargestKeys]
  have hlen :
      (sentScores
        (normalizeFreq (computeWordFreq exStop
          (docTokens [c2S1, c2S2, c2S3])))
        [c2S1, c2S2, c2S3]).length = 2 := by
    rw [sentScores_eq _ _ (by decide), List.length_map]
    decide
  rw [hlen, hK]
  decide

/-! ### Claim C9 -/

/-- C9 as stated is false: see `config_validation_counterexample`.
Amended claim: `summarize_text_spacy` performs no configuration
validation and never raises; on every input (valid or not) it returns a
string, and the number of joined sentences is bounded by
`max(min(minSentences, total), maxSentences)` -- in particular the main
selection path silently clamps to `maxSentences` even when
`minSentences > maxSentences`. -/
theorem no_config_validation (stopwords : String → Bool) (text : String)
    (sentences : List Sentence) (ratio : ℚ) (mi ma : Nat) :
    (outputSentences
        (summarizeCore stopwords text sentences ratio mi ma)).length
      ≤ max (min mi sentences.length) ma := by
  by_cases h1 : (text.isEmpty || (pyStrip text).isEmpty) = true
  · rw [summarizeCore_eq_empty _ _ _ _ _ _ h1]
    simp [outputSentences]
  · have h1' : (text.isEmpty || (pyStrip text).isEmpty) = false := by
      simpa using h1
    by_cases h2 : sentences = []
    · subst h2
      rw [summarizeCore_eq_noSentences _ _ _ _ _ h1']
      simp [outputSentences]
    · by_cases h3 : computeWordFreq stopwords (docTokens sentences) = []
      · rw [summarizeCore_eq_fallback _ _ _ _ _ _ h1' h2 h3]
        simp only [outputSentences, List.length_take]
        exact le_max_left _ _
      · rw [summarizeCore_eq_summary _ _ _ _ _ _ h1' h2 h3]
        simp only [outputSentences]
        rw [length_sortByStart, length_nlargestKeys]
        have := targetK_le_max sentences.length ratio mi ma
        omega

/-! ### Claim C7 -/

/-- C7: the summarizer is a pure function of its input text, tokenization
and configuration, so identical runs return identical strings; the
substantive part is that selection is stable: among entries with equal
scores, whenever a later-encountered entry's sentence is selected by
`nlargest`, every earlier-encountered entry with the same score is
selected too (ties broken by encountering order). -/
theorem deterministic_stable_selection (m : List (Sentence × ℚ)) (K : Nat)
    (a b : Sentence × ℚ) (hnd : (m.map Prod.fst).Nodup)
    (hsub : List.Sublist [a, b] m) (hscore : a.2 = b.2)
    (hb : b.1 ∈ nlargestKeys K m) : a.1 ∈ nlargestKeys K m :=
  nlargestKeys_stable_ties m K a b hnd hsub hscore hb

/-- Witness for C7: two equal-scored entries; the earlier one is selected
because the later one is. -/
theorem deterministic_stable_selection_witness :
    cexS1 ∈ nlargestKeys 2 [(cexS1, (1 : ℚ)), (c2S2, (1 : ℚ))] :=
  deterministic_stable_selection [(cexS1, (1 : ℚ)), (c2S2, (1 : ℚ))] 2
    (cexS1, (1 : ℚ)) (c2S2, (1 : ℚ)) (by decide)
    (List.Sublist.refl _) rfl
    (by simp [nlargestKeys, List.mergeSort, List.merge])

/-! ### Claim C8 -/

/-- A token that survives the content-word filter chain is neither space
nor punctuation. -/
theorem tokenContentKey_not_spacepunct (stopwords : String → Bool)
    (t : Token) (h : tokenContentKey stopwords t ≠ none) :
    (t.is_space || t.is_punct) = false := by
  unfold tokenContentKey at h
  by_cases hb : (t.is_space || t.is_punct) = true
  · rw [if_pos hb] at h
    exact absurd rfl h
  · simpa using hb

/-- C8: a document that segments into exactly one sentence yields, for
every valid configuration (`ratio` in (0,1], `1 ≤ min ≤ max`), exactly
that sentence's trimmed text: on the fallback branch because the prefix
of length `min ≥ 1` is the whole document, and on the main branch because
the target count clamps to the single available sentence. -/
theorem single_sentence_summary (stopwords : String → Bool) (text : String)
    (s : Sentence) (ratio : ℚ) (mi ma : Nat)
    (htext : (text.isEmpty || (pyStrip text).isEmpty) = false)
    (hr0 : 0 < ratio) (hr1 : ratio ≤ 1)
    (hmi : 1 ≤ mi) (hmima : mi ≤ ma) :
    summarize_text_spacy stopwords text [s] ratio mi ma = pyStrip s.text := by
  unfold summarize_text_spacy
  by_cases hwf : computeWordFreq stopwords (docTokens [s]) = []
  · rw [summarizeCore_eq_fallback _ _ _ _ _ _ htext (by simp) hwf]
    rw [List.take_of_length_le (by simpa using hmi)]
    rfl
  · rw [summarizeCore_eq_summary _ _ _ _ _ _ htext (by simp) hwf]
    have hdoc : docTokens [s] = s.tokens := by simp [docTokens]
    have hck : (sentenceRaw
        (normalizeFreq (computeWordFreq stopwords (docTokens [s]))) s).2
        = (contentTokens s).length := by
      rw [sentenceRaw_eq]
    have hcontent : 0 < (sentenceRaw
        (normalizeFreq (computeWordFreq stopwords (docTokens [s]))) s).2 := by
      rw [hck]
      by_contra hzero
      apply hwf
      apply computeWordFreq_eq_nil
      intro t ht
      by_contra hkey
      have hsp := tokenContentKey_not_spacepunct stopwords t hkey
      have htc : t ∈ contentTokens s :=
        List.mem_filter.mpr ⟨by rwa [hdoc] at ht, by simp [hsp]⟩
      exact hzero (List.length_pos.mpr (List.ne_nil_of_mem htc))
    have hscores : sentScores
        (normalizeFreq (computeWordFreq stopwords (docTokens [s]))) [s]
        = [(s, sentenceScore
            (normalizeFreq (computeWordFreq stopwords (docTokens [s]))) s)] := by
      rw [sentScores_eq _ _ (by simp)]
      have hg : decide (0 < (sentenceRaw
          (normalizeFreq (computeWordFreq stopwords (docTokens [s]))) s).2)
          = true := decide_eq_true hcontent
      simp [hg]
    rw [hscores]
    rw [show ([s] : List Sentence).length = 1 from rfl]
    have hK : targetK 1 ratio mi ma = 1 := by
      simp only [targetK]
      have h := le_max_left (mi : Int) (pyInt (((1 : Nat) : ℚ) * ratio))
      omega
    rw [hK]
    have htop : nlargestKeys 1
        [(s, sentenceScore
          (normalizeFreq (computeWordFreq stopwords (docTokens [s]))) s)]
        = [s] := by
      simp [nlargestKeys]
    rw [htop]
    have hsort : sortByStart [s] = [s] := by
      simp [sortByStart]
    rw [hsort]
    rfl

/-- Witness for C8 at a one-sentence document with ratio 1, min 1, max 1. -/
theorem single_sentence_summary_witness :
    summarize_text_spacy exStop "Cats sat." [cexS1] 1 1 1
      = pyStrip cexS1.text :=
  single_sentence_summary exStop "Cats sat." cexS1 1 1 1
    (by decide) (by decide) (by decide) (by decide) (by decide)

/-- C9 counterexample: with the invalid configuration
`min_sentences = 5 > max_sentences = 2` the function does not fail with a
configuration error: it silently returns a normal string whose sentence
count (2) is clamped below the requested minimum (5) -- degenerate
output, no error. -/
theorem config_validation_counterexample :
    5 > 2
    ∧ summarize_text_spacy exStop "Dogs run. Birds fly. ..."
        [c2S1, c2S2, c2S3] (3/10) 5 2
      = "Dogs run. Birds fly."
    ∧ (outputSentences
        (summarizeCore exStop "Dogs run. Birds fly. ..."
          [c2S1, c2S2, c2S3] (3/10) 5 2)).length < 5 := by
  have hwfN : normalizeFreq (computeWordFreq exStop
      (docTokens [c2S1, c2S2, c2S3]))
      = [("dog", (1 : ℚ)), ("run", 1), ("bird", 1), ("fly", 1)] := by
    rw [show computeWordFreq exStop (docTokens [c2S1, c2S2, c2S3])
      = [("dog", 1), ("run", 1), ("bird", 1), ("fly", 1)] from by decide]
    norm_num [normalizeFreq, maxFreq]
  have hv1 : tokenWeight [("dog", (1 : ℚ)), ("run", 1), ("bird", 1), ("fly", 1)]
      ⟨"Dogs", "dog", false, false, false⟩ = 1 := rfl
  have hv2 : tokenWeight [("dog", (1 : ℚ)), ("run", 1), ("bird", 1), ("fly", 1)]
      ⟨"run", "run", false, false, false⟩ = 1 := rfl
  have hv3 : tokenWeight [("dog", (1 : ℚ)), ("run", 1), ("bird", 1), ("fly", 1)]
      ⟨"Birds", "bird", false, false, false⟩ = 1 := rfl
  have hv4 : tokenWeight [("dog", (1 : ℚ)), ("run", 1), ("bird", 1), ("fly", 1)]
      ⟨"fly", "fly", false, false, false⟩ = 1 := rfl
  have hs1 : sentenceScore
      [("dog", (1 : ℚ)), ("run", 1), ("bird", 1), ("fly", 1)] c2S1 = 1 := by
    unfold sentenceScore
    rw [sentenceRaw_eq, show contentTokens c2S1
      = [⟨"Dogs", "dog", false, false, false⟩,
         ⟨"run", "run", false, false, false⟩] from by decide]
    simp only [List.map_cons, List.map_nil, hv1, hv2, List.sum_cons,
      List.sum_nil, List.length_cons, List.length_nil]
    norm_num
  have hs2 : sentenceScore
      [("dog", (1 : ℚ)), ("run", 1), ("bird", 1), ("fly", 1)] c2S2 = 1 := by
    unfold sentenceScore
    rw [sentenceRaw_eq, show contentTokens c2S2
      = [⟨"Birds", "bird", false, false, false⟩,
         ⟨"fly", "fly", false, false, false⟩] from by decide]
    simp only [List.map_cons, List.map_nil, hv3, hv4, List.sum_cons,
      List.sum_nil, List.length_cons, List.length_nil]
    norm_num
  have hscores : sentScores
      [("dog", (1 : ℚ)), ("run", 1), ("bird", 1), ("fly", 1)]
      [c2S1, c2S2, c2S3] = [(c2S1, 1), (c2S2, 1)] := by
    rw [sentScores_eq _ _ (by decide)]
    rw [show [c2S1, c2S2, c2S3].filter
      (fun s => decide (0 < (sentenceRaw
        [("dog", (1 : ℚ)), ("run", 1), ("bird", 1), ("fly", 1)] s).2))
      = [c2S1, c2S2] from by decide]
    simp only [List.map_cons, List.map_nil, hs1, hs2]
  have hK : targetK ([c2S1, c2S2, c2S3] : List Sentence).length (3/10) 5 2
      = 2 := by
    have hcast : ((([c2S1, c2S2, c2S3] : List Sentence).length : ℚ))
        * (3/10) = 9/10 := by
      norm_num
    simp only [targetK, pyInt, hcast]
    rw [if_pos (by norm_num)]
    rw [show ⌊(9/10 : ℚ)⌋ = 0 from by
      rw [Int.floor_eq_zero_iff]
      constructor <;> norm_num]
    decide
  have hcore : summarizeCore exStop "Dogs run. Birds fly. ..."
      [c2S1, c2S2, c2S3] (3/10) 5 2 = .summary [c2S1, c2S2] := by
    rw [summarizeCore_eq_summary _ _ _ _ _ _ (by decide) (by decide)
      (by decide)]
    rw [hwfN, hscores, hK]
    rw [show nlargestKeys 2 [(c2S1, (1 : ℚ)), (c2S2, 1)] = [c2S1, c2S2] from by
      simp [nlargestKeys, List.mergeSort, List.merge]]
    rw [show sortByStart [c2S1, c2S2] = [c2S1, c2S2] from by
      simp +decide [sortByStart, List.mergeSort, List.merge, c2S1, c2S2]]
  refine ⟨by decide, ?_, ?_⟩
  · unfold summarize_text_spacy
    rw [hcore]
    decide
  · rw [hcore]
    decide

end TextSummarizer
